import Mathlib

/-!
Verification of the doopler QC tagging and VAD wind-retrieval core.

The development shallowly embeds the algorithmic core of `qc_tagging_v2.py`
and `wind_profile_uvw_v2.py`:

* numeric row values are embedded as exact rationals (`ℚ`); nullable columns
  are `Option ℚ`;
* Python dictionaries keyed by row keys are embedded as association lists in
  insertion order (`List (key × value)`, lookup takes the first match);
* Python's stable ascending `sorted` is embedded as a stable insertion sort
  (`sortedList`);
* the real-analytic solver quantities (design matrix, least squares,
  diagnostics) are embedded over `ℝ`.
-/

namespace QC

/-- Stable insertion of `a` into a list: `a` is placed before the first
element `b` with `lt b a = false`, so equal elements keep their original
relative order. -/
def insertSorted {α : Type} (lt : α → α → Bool) (a : α) : List α → List α
  | [] => [a]
  | b :: l => if lt b a then b :: insertSorted lt a l else a :: b :: l

/-- Stable ascending sort (embeds Python's `sorted`, which is stable). -/
def sortedList {α : Type} (lt : α → α → Bool) : List α → List α
  | [] => []
  | x :: xs => insertSorted lt x (sortedList lt xs)

/-- Tunable parameter `SNR_MIN = 0.015` of `qc_tagging_v2.py`. -/
def SNR_MIN : ℚ := 15 / 1000

/-- Tunable parameter `K_SW = 1.5`. -/
def K_SW : ℚ := 3 / 2

/-- Tunable parameter `TILT_ABS_MAX = 2.0`. -/
def TILT_ABS_MAX : ℚ := 2

/-- Tunable parameter `ELEV_MIN = 10.0`. -/
def ELEV_MIN : ℚ := 10

/-- Tunable parameter `ELEV_MAX = 89.9`. -/
def ELEV_MAX : ℚ := 899 / 10

/-- Tunable parameter `AZ_DUP_TOL = 0.1`. -/
def AZ_DUP_TOL : ℚ := 1 / 10

/-- Tunable parameter `VR_ABS_MAX = 60.0`. -/
def VR_ABS_MAX : ℚ := 60

/-- Tunable parameter `MAD_K = 3.5`. -/
def MAD_K : ℚ := 7 / 2

/-- Tunable parameter `MIN_RAYS = 3`. -/
def MIN_RAYS : ℕ := 3

/-- Tunable parameter `MIN_SPAN_DEG = 120.0`. -/
def MIN_SPAN_DEG : ℚ := 120

/-- Tunable parameter `BIN_DEG = 10.0`. -/
def BIN_DEG : ℚ := 10

/-- Tunable parameter `MIN_NONEMPTY_BINS = 3`. -/
def MIN_NONEMPTY_BINS : ℕ := 3

/-- Tunable parameter `VERT_THR = 2.0`. -/
def VERT_THR : ℚ := 2

/-- Normal-consistency scale factor `1.4826` used inline in
`precompute_gate_context`. -/
def MAD_SCALE : ℚ := 14826 / 10000

/-- One `wind_profile_gate` observation row as read by the QC pass.  Nullable
numeric columns are `Option ℚ`. -/
structure Row where
  range_gate_index : ℤ
  ray_idx : ℤ
  doppler_ms : Option ℚ
  azimuth_deg : Option ℚ
  elevation_deg : Option ℚ
  pitch_deg : Option ℚ
  roll_deg : Option ℚ
  intensity_snr_plus1 : Option ℚ
  spectral_width_ms : Option ℚ
deriving DecidableEq

/-- Row key `(range_gate_index, ray_idx)` used by the per-gate context maps. -/
abbrev RowKey : Type := ℤ × ℤ

/-- Key of a row in the context maps. -/
def rowKey (r : Row) : RowKey := (r.range_gate_index, r.ray_idx)

/-- Embedding of `safe_float(x, default)` at call sites whose default is a
number: a present value is returned unchanged, an absent one becomes the
default (values are already numeric in the embedding, so no parse can fail). -/
def safeFloatD (x : Option ℚ) (d : ℚ) : ℚ := x.getD d

/-- Embedding of `median(values)`: sort ascending, take the middle element for
odd length and the mean of the two middle elements for even length; `none` on
an empty list. -/
def median (values : List ℚ) : Option ℚ :=
  let vals := sortedList (fun a b => decide (a < b)) values
  let n := vals.length
  if n = 0 then none
  else
    let mid := n / 2
    if n % 2 = 1 then some (vals.getD mid 0)
    else some ((vals.getD (mid - 1) 0 + vals.getD mid 0) / 2)

/-- Embedding of `mad(values, med)` (the call sites always pass the median
explicitly): the median of absolute deviations, `none` on an empty list. -/
def mad (values : List ℚ) (med : ℚ) : Option ℚ :=
  if values = [] then none
  else median (values.map (fun v => |v - med|))

/-- Python's `%` on a positive divisor: `a - b * floor (a / b)`, always in
`[0, b)`. -/
def qmod (a b : ℚ) : ℚ := a - b * ⌊a / b⌋

/-- Embedding of `norm360(a)`: reduce modulo 360, then collapse values within
`AZ_DUP_TOL` of 0 or 360 to 0; `none` propagates. -/
def norm360 (a : Option ℚ) : Option ℚ :=
  match a with
  | none => none
  | some a =>
    let a := qmod a 360
    if |a - 360| ≤ AZ_DUP_TOL ∨ |a| ≤ AZ_DUP_TOL then some 0 else some a

/-- Embedding of `circular_span_deg(unique_az_deg)` from `qc_tagging_v2.py`:
360 minus the largest circular gap between consecutive sorted azimuths
(the fold's base 0 is never the maximum of the nonempty gap list, as every
gap is nonnegative). -/
def circular_span_deg (unique_az_deg : List ℚ) : ℚ :=
  let n := unique_az_deg.length
  if n ≤ 1 then 0
  else
    let s := sortedList (fun a b => decide (a < b)) unique_az_deg
    let gaps := (List.range n).map (fun i => qmod (s.getD ((i + 1) % n) 0 - s.getD i 0) 360)
    360 - gaps.foldr max 0

/-- Circular-distance test `min(abs(az-c), 360-abs(az-c)) <= tol` used by the
azimuth snapping loop. -/
def circDistLe (tol az c : ℚ) : Bool := decide (min |az - c| (360 - |az - c|) ≤ tol)

/-- The loop of `snap_azimuths_per_gate`: processes the azimuth-sorted row
list, carrying the list of canonical representatives (`seen`, in insertion
order) and emitting the canonical-azimuth and duplicate-flag entries in
processing order.  A `none` azimuth is marked duplicate with no canonical
value; otherwise the first representative within tolerance wins, and a row
with no representative in reach becomes a new canonical value. -/
def snapLoop (tol : ℚ) (seen : List ℚ) :
    List (ℤ × ℤ × Option ℚ) →
      List (RowKey × Option ℚ) × List (RowKey × Bool) × List ℚ
  | [] => ([], [], seen)
  | (gi, ray, none) :: rest =>
    let out := snapLoop tol seen rest
    (((gi, ray), none) :: out.1, ((gi, ray), true) :: out.2.1, out.2.2)
  | (gi, ray, some az) :: rest =>
    match seen.find? (circDistLe tol az) with
    | none =>
      let out := snapLoop tol (seen ++ [az]) rest
      (((gi, ray), some az) :: out.1, ((gi, ray), false) :: out.2.1, out.2.2)
    | some rep =>
      let out := snapLoop tol seen rest
      (((gi, ray), some rep) :: out.1, ((gi, ray), true) :: out.2.1, out.2.2)

/-- Sort key used by `snap_azimuths_per_gate`: `none` azimuths sort as 9999. -/
def snapKey (x : ℤ × ℤ × Option ℚ) : ℚ :=
  match x.2.2 with
  | none => 9999
  | some a => a

/-- Embedding of `snap_azimuths_per_gate(rows_for_gate, tol)`: normalize each
azimuth, sort rows by (normalized) azimuth with `none` last, then run the
snapping loop; returns the canonical-azimuth map, duplicate-flag map and the
sorted list of canonical representatives. -/
def snap_azimuths_per_gate (rows_for_gate : List Row) (tol : ℚ) :
    List (RowKey × Option ℚ) × List (RowKey × Bool) × List ℚ :=
  let tmp := rows_for_gate.map (fun r => (r.range_gate_index, r.ray_idx, norm360 r.azimuth_deg))
  let tmp := sortedList (fun a b => decide (snapKey a < snapKey b)) tmp
  let out := snapLoop tol [] tmp
  (out.1, out.2.1, sortedList (fun a b => decide (a < b)) out.2.2)

/-- Per-header evaluation context handed to the rule predicates (the output of
`precompute_gate_context`), with Python dictionaries embedded as association
lists.  Coverage info is `(count, span)`, bin-fill info is the nonempty-bin
count. -/
structure Ctx where
  instrument_spectral_width_ms : Option ℚ
  az_dup_by_rowkey : List (RowKey × Bool)
  mad_fail_by_rowkey : List (RowKey × Bool)
  coverage_by_gate : List (ℤ × ℕ × ℚ)
  vert_metric_by_gate : List (ℤ × Option ℚ)
  binfill_by_gate : List (ℤ × ℕ)

/-- Rule predicate `check_nulls` (pass component): radial velocity, azimuth
and elevation must all be present. -/
def check_nulls (row : Row) (_ : Ctx) : Bool :=
  !(row.doppler_ms = none || row.azimuth_deg = none || row.elevation_deg = none)

/-- Rule predicate `check_snr_min`: `intensity - 1 >= SNR_MIN`, with a missing
intensity defaulting to 1 (so snr defaults to 0). -/
def check_snr_min (row : Row) (_ : Ctx) : Bool :=
  decide (safeFloatD row.intensity_snr_plus1 1 - 1 ≥ SNR_MIN)

/-- Rule predicate `check_spectral_width_max`: spectral width at most
`K_SW` times the instrument spectral width, falling back to `K_SW * 1.0` when
the instrument value is absent or not positive. -/
def check_spectral_width_max (row : Row) (ctx : Ctx) : Bool :=
  let sw := safeFloatD row.spectral_width_ms 0
  let instr_sw := safeFloatD ctx.instrument_spectral_width_ms 0
  let thr := K_SW * (if instr_sw > 0 then instr_sw else 1)
  decide (sw ≤ thr)

/-- Rule predicate `check_pitch_roll_max`: `max |pitch| |roll| <= TILT_ABS_MAX`
with absent values defaulting to 0. -/
def check_pitch_roll_max (row : Row) (_ : Ctx) : Bool :=
  decide (max |safeFloatD row.pitch_deg 0| |safeFloatD row.roll_deg 0| ≤ TILT_ABS_MAX)

/-- Rule predicate `check_elevation_range`: elevation present and inside
`[ELEV_MIN, ELEV_MAX]`. -/
def check_elevation_range (row : Row) (_ : Ctx) : Bool :=
  match row.elevation_deg with
  | none => false
  | some elev => decide (ELEV_MIN ≤ elev ∧ elev ≤ ELEV_MAX)

/-- Rule predicate `check_azimuth_duplicate_guard`: the row's key must not be
flagged in the context's azimuth-duplicate map (absent keys default to not
duplicate). -/
def check_azimuth_duplicate_guard (row : Row) (ctx : Ctx) : Bool :=
  !((ctx.az_dup_by_rowkey.lookup (rowKey row)).getD false)

/-- Rule predicate `check_velocity_bounds`: radial velocity present and of
magnitude at most `VR_ABS_MAX`. -/
def check_velocity_bounds (row : Row) (_ : Ctx) : Bool :=
  match row.doppler_ms with
  | none => false
  | some vr => decide (|vr| ≤ VR_ABS_MAX)

/-- Rule predicate `check_gate_outlier_mad`: the row's key must not be flagged
in the context's robust-outlier map (absent keys default to not flagged). -/
def check_gate_outlier_mad (row : Row) (ctx : Ctx) : Bool :=
  !((ctx.mad_fail_by_rowkey.lookup (rowKey row)).getD false)

/-- Rule predicate `check_azimuth_coverage_gate`: the row's gate must have at
least `MIN_RAYS` distinct canonical azimuths spanning at least
`MIN_SPAN_DEG`. -/
def check_azimuth_coverage_gate (row : Row) (ctx : Ctx) : Bool :=
  let info := (ctx.coverage_by_gate.lookup row.range_gate_index).getD (0, 0)
  decide (info.1 ≥ MIN_RAYS ∧ info.2 ≥ MIN_SPAN_DEG)

/-- Rule predicate `check_vertical_consistency`: the gate's vertical metric is
absent or at most `VERT_THR`. -/
def check_vertical_consistency (row : Row) (ctx : Ctx) : Bool :=
  match (ctx.vert_metric_by_gate.lookup row.range_gate_index).getD none with
  | none => true
  | some v => decide (v ≤ VERT_THR)

/-- Rule predicate `check_gate_uniform_bin_fill`: the row's gate must populate
at least `MIN_NONEMPTY_BINS` coarse azimuth bins. -/
def check_gate_uniform_bin_fill (row : Row) (ctx : Ctx) : Bool :=
  decide ((ctx.binfill_by_gate.lookup row.range_gate_index).getD 0 ≥ MIN_NONEMPTY_BINS)

/-- The static registry built by the `@register` decorators: a name-keyed
immutable table of the ten rule predicates, in registration order. -/
def RULE_REGISTRY : List (String × (Row → Ctx → Bool)) :=
  [("check_nulls", check_nulls),
   ("check_snr_min", check_snr_min),
   ("check_spectral_width_max", check_spectral_width_max),
   ("check_pitch_roll_max", check_pitch_roll_max),
   ("check_elevation_range", check_elevation_range),
   ("check_azimuth_duplicate_guard", check_azimuth_duplicate_guard),
   ("check_velocity_bounds", check_velocity_bounds),
   ("check_gate_outlier_mad", check_gate_outlier_mad),
   ("check_azimuth_coverage_gate", check_azimuth_coverage_gate),
   ("check_gate_uniform_bin_fill", check_gate_uniform_bin_fill)]

/-- Embedding of the rule-snapshot step of `run_qc_process`: the active rule
list `(rule_id, def_name)` read from `vad_rule_qc` is turned into
`(rule_id, def_name, predicate)` triples, and a `def_name` with no entry in
`RULE_REGISTRY` is dropped by the comprehension's filter. -/
def snapshot_rules (active : List (ℤ × String)) :
    List (ℤ × String × (Row → Ctx → Bool)) :=
  active.filterMap (fun r => (RULE_REGISTRY.lookup r.2).map (fun f => (r.1, r.2, f)))

/-- The per-row QC outcome written back to `wind_profile_gate`
(`qc_selected`, `qc_failed_rules_csv`, `qc_failed_rule_count` plus the row's
key). -/
structure Update where
  qc_selected : Bool
  qc_failed_rules_csv : Option String
  qc_failed_rule_count : ℕ
  header_id : ℤ
  range_gate_index : ℤ
  ray_idx : ℤ
deriving DecidableEq

/-- Embedding of the per-row loop body of `run_qc_process`: collect the ids of
every active rule whose predicate fails on the row (all rules are evaluated),
then persist `selected = 1` exactly when no rule failed, the failed ids as a
comma-separated string (NULL when empty), and the failure count. -/
def tagRow (rules : List (ℤ × String × (Row → Ctx → Bool))) (ctx : Ctx)
    (hid : ℤ) (row : Row) : Update :=
  let f_ids := (rules.filter (fun r => !(r.2.2 row ctx))).map (fun r => r.1)
  { qc_selected := f_ids.isEmpty
    qc_failed_rules_csv :=
      if f_ids.isEmpty then none
      else some (String.intercalate (",") (f_ids.map toString))
    qc_failed_rule_count := f_ids.length
    header_id := hid
    range_gate_index := row.range_gate_index
    ray_idx := row.ray_idx }

/-- The `WHERE qc_selected=0 AND qc_failed_rule_count=0` filter of
`fetch_pending_headers`: the "unevaluated" sentinel state. -/
def qc_pending_row (qc_selected : Bool) (qc_failed_rule_count : ℕ) : Bool :=
  !qc_selected && decide (qc_failed_rule_count = 0)

/-- Radial velocities of one gate's rows, absent values dropped (the
comprehension `[safe_float(x.get(...)) for x in lst if x.get(...) is not None]`
of `precompute_gate_context`). -/
def gateVrs (lst : List Row) : List ℚ := lst.filterMap Row.doppler_ms

/-- The scaled-MAD denominator base `m = max(mad(vrs, med) if vrs else 0.05,
0.05)` of `precompute_gate_context` (the 0.05 floor). -/
def gate_m (vrs : List ℚ) (med : Option ℚ) : ℚ :=
  max (if vrs = [] then 1 / 20 else (mad vrs (med.getD 0)).getD (1 / 20)) (1 / 20)

/-- The per-row robust outlier flag
`vr is None or abs(vr - med) / (1.4826 * m) > MAD_K`. -/
def mad_flag (med m : ℚ) (vr : Option ℚ) : Bool :=
  match vr with
  | none => true
  | some v => decide (|v - med| / (MAD_SCALE * m) > MAD_K)

/-- The `mad_fail_by_rowkey` entries produced for one gate by
`precompute_gate_context`: nothing when the gate median is undefined,
otherwise one flag per row of the gate. -/
def gate_mad_fail (lst : List Row) : List (RowKey × Bool) :=
  let vrs := gateVrs lst
  match median vrs with
  | none => []
  | some medv =>
    lst.map (fun x => (rowKey x, mad_flag medv (gate_m vrs (some medv)) x.doppler_ms))

/-- A context with no instrument spectral width and empty per-gate maps. -/
def emptyCtx : Ctx :=
  { instrument_spectral_width_ms := none
    az_dup_by_rowkey := []
    mad_fail_by_rowkey := []
    coverage_by_gate := []
    vert_metric_by_gate := []
    binfill_by_gate := [] }

/-- A gate row carrying only a radial velocity. -/
def mkRowV (ray : ℤ) (v : ℚ) : Row :=
  { range_gate_index := 0, ray_idx := ray, doppler_ms := some v, azimuth_deg := none
    elevation_deg := none, pitch_deg := none, roll_deg := none
    intensity_snr_plus1 := none, spectral_width_ms := none }

/-- A gate row carrying only an azimuth. -/
def mkRowAz (ray : ℤ) (az : Option ℚ) : Row :=
  { range_gate_index := 0, ray_idx := ray, doppler_ms := none, azimuth_deg := az
    elevation_deg := none, pitch_deg := none, roll_deg := none
    intensity_snr_plus1 := none, spectral_width_ms := none }

/-- The spec's outlier test gate: radial velocities `[1, 1, 1, 1, 50]`. -/
def exMadGate : List Row :=
  [mkRowV 0 1, mkRowV 1 1, mkRowV 2 1, mkRowV 3 1, mkRowV 4 50]

/-- Gate with azimuths 10°, 10.08°, 10.16°: adjacent pairs are within the
0.1° tolerance but the ends are not. -/
def exChainRows : List Row :=
  [mkRowAz 0 (some 10), mkRowAz 1 (some (1008 / 100)), mkRowAz 2 (some (1016 / 100))]

/-- Gate with azimuths 359.95° and 0.05° (the spec's wrap-around example). -/
def exWrapRows : List Row :=
  [mkRowAz 0 (some (35995 / 100)), mkRowAz 1 (some (1 / 20))]

/-- Gate with azimuths 0° and 180° (the spec's no-merge example). -/
def exFarRows : List Row :=
  [mkRowAz 0 (some 0), mkRowAz 1 (some 180)]

/-- Specification of one canonical-azimuth entry: a null azimuth gets no
canonical value; a present (normalized) azimuth is canonicalized either to
itself or to some earlier-seen value within the circular tolerance of it. -/
def canonRel (tol : ℚ) (az v : Option ℚ) : Prop :=
  match az with
  | none => v = none
  | some a => v = some a ∨ ∃ c, v = some c ∧ circDistLe tol a c = true

/-- A gate with one normal row and one row whose azimuth is null. -/
def exNullAzRows : List Row := [mkRowAz 0 (some 20), mkRowAz 1 none]

/-- The QC context whose azimuth-duplicate map comes from canonicalizing
`exNullAzRows`. -/
def exNullAzCtx : Ctx :=
  { emptyCtx with
    az_dup_by_rowkey := (snap_azimuths_per_gate exNullAzRows AZ_DUP_TOL).2.1 }

/-- A typical fully populated observation row. -/
def exPendingRow : Row :=
  { range_gate_index := 5, ray_idx := 0, doppler_ms := some 1, azimuth_deg := some 20
    elevation_deg := some 75, pitch_deg := some 0, roll_deg := some 0
    intensity_snr_plus1 := some (102 / 100), spectral_width_ms := some (1 / 10) }

/-- A row whose spectral width (2 m/s) exceeds the 1.5 m/s fallback
threshold. -/
def exSwRow : Row :=
  { range_gate_index := 0, ray_idx := 0, doppler_ms := none, azimuth_deg := none
    elevation_deg := none, pitch_deg := none, roll_deg := none
    intensity_snr_plus1 := none, spectral_width_ms := some 2 }

end QC

namespace VAD

open Matrix

/-- Solver configuration `min_selected_to_solve = 3`. -/
def min_selected_to_solve : ℕ := 3

/-- Solver configuration `max_selected = 6`. -/
def max_selected : ℕ := 6

/-- Diagnostic threshold `cond_max = 1e6` of `DIAG_THRESH`. -/
def cond_max : ℚ := 1000000

/-- Diagnostic threshold `az_span_min = 120` of `DIAG_THRESH`. -/
def az_span_min : ℚ := 120

/-- Diagnostic threshold `rank_min = 3` of `DIAG_THRESH`. -/
def rank_min : ℕ := 3

/-- Embedding of `circular_span_deg(angles_deg)` from
`wind_profile_uvw_v2.py`: sort the azimuths modulo 360, append the
wrap-around gap to the consecutive differences, and clamp
`360 - max gap` into `[0, 360]` (the fold's base 0 is never the maximum of
the nonempty gap list, as every gap is nonnegative). -/
def circular_span_deg (angles_deg : List ℚ) : ℚ :=
  if angles_deg.length = 0 then 0
  else
    let a := QC.sortedList (fun x y => decide (x < y)) (angles_deg.map (fun x => QC.qmod x 360))
    let gaps :=
      ((List.range (a.length - 1)).map (fun i => a.getD (i + 1) 0 - a.getD i 0)) ++
        [a.getD 0 0 + 360 - a.getD (a.length - 1) 0]
    max 0 (min 360 (360 - gaps.foldr max 0))

/-- One `vad_gate_fit` row as assembled by `process_gate_batch`: every column
of the INSERT list of `bulk_upsert`.  Columns a `solve_fail` record leaves
unset are `Option`s (`r.get(k)` yields NULL for them). -/
structure FitRecord where
  run_id : ℤ
  rule_tag : Option String
  header_id : ℤ
  range_gate_index : ℤ
  u_ms : Option ℚ
  v_ms : Option ℚ
  w_ms : Option ℚ
  speed_ms : Option ℚ
  dir_deg : Option ℚ
  r2 : Option ℚ
  rmse_ms : Option ℚ
  status : Option String
  n_total_rays : Option ℕ
  n_selected_rays : Option ℕ
  warn_flags : Option String
  code_version : Option String
  selected_ray_idx_csv : Option String
  selected_azimuth_deg_csv : Option String
  selected_elevation_deg_csv : Option String
  svd_singular_values : Option String
  cond_num : Option ℚ
  a_rank : Option ℕ
  az_span_deg : Option ℚ
deriving DecidableEq

/-- Modelled from the spec: the fit table's unique key is
`(header_id, range_gate_index)` ("WindFitResult (write/upsert, key =
header_id + range_gate_index)"); the schema itself is owned outside this
repository's core. -/
def fitKey (r : FitRecord) : ℤ × ℤ := (r.header_id, r.range_gate_index)

/-- One row of the `INSERT ... ON DUPLICATE KEY UPDATE` statement issued by
`bulk_upsert`: a fresh key appends the record; an existing key updates every
column to the incoming value except `run_id`, `header_id` and
`range_gate_index` — exactly the three columns `bulk_upsert` excludes from
its UPDATE list (the key columns are unchanged anyway, so only `run_id`
keeps its old value). -/
def upsertOne (table : List FitRecord) (r : FitRecord) : List FitRecord :=
  match table.find? (fun t => decide (fitKey t = fitKey r)) with
  | none => table ++ [r]
  | some _ =>
    table.map (fun t => if fitKey t = fitKey r then { r with run_id := t.run_id } else t)

/-- Embedding of `bulk_upsert(db, records)`: the executemany loop applies the
upsert row by row. -/
def bulk_upsert (table : List FitRecord) (records : List FitRecord) : List FitRecord :=
  records.foldl upsertOne table

/-- A fit record as produced by a first solving run (`run_id = 1`). -/
def baseFit : FitRecord :=
  { run_id := 1, rule_tag := some ("VAD_VERIFIED"), header_id := 7, range_gate_index := 4
    u_ms := some 1, v_ms := some 2, w_ms := some 0, speed_ms := none, dir_deg := none
    r2 := some 1, rmse_ms := some 0, status := some ("ok"), n_total_rays := some 6
    n_selected_rays := some 6, warn_flags := none, code_version := some ("v2_final")
    selected_ray_idx_csv := none, selected_azimuth_deg_csv := none
    selected_elevation_deg_csv := none, svd_singular_values := none
    cond_num := some 2, a_rank := some 3, az_span_deg := some 270 }

/-- A re-solve of the same `(header, gate)` key by a later run
(`run_id = 2`), with a different rule tag and different wind values. -/
def refit : FitRecord :=
  { baseFit with run_id := 2, rule_tag := some ("VAD_RERUN"), u_ms := some 9 }

/-- Residual sum of squares `sum((y - yhat)^2)` of `solve_vad_unweighted`. -/
noncomputable def ss_res_of {n : ℕ} (y yhat : Fin n → ℝ) : ℝ := ∑ i, (y i - yhat i) ^ 2

/-- Sample mean `np.mean(y)`. -/
noncomputable def mean_of {n : ℕ} (y : Fin n → ℝ) : ℝ := (∑ i, y i) / n

/-- Total sum of squares `sum((y - mean(y))^2)`. -/
noncomputable def ss_tot_of {n : ℕ} (y : Fin n → ℝ) : ℝ := ∑ i, (y i - mean_of y) ^ 2

open Classical in
/-- The reported `r2 = 1 - ss_res / ss_tot if ss_tot > 0 else 0.0`. -/
noncomputable def r2_of {n : ℕ} (y yhat : Fin n → ℝ) : ℝ :=
  if ss_tot_of y > 0 then 1 - ss_res_of y yhat / ss_tot_of y else 0

/-- The reported `rmse = sqrt(ss_res / max(len(y) - 3, 1))` (the subtraction
is on Python ints, so it is `ℤ` subtraction). -/
noncomputable def rmse_of {n : ℕ} (y yhat : Fin n → ℝ) : ℝ :=
  Real.sqrt (ss_res_of y yhat / ((max ((n : ℤ) - 3) 1 : ℤ) : ℝ))

open Classical in
/-- The reported condition number
`svals[0]/svals[-1] if (svals.size >= 2 and svals[-1] > 0) else inf`,
with `none` standing for the infinite value. -/
noncomputable def cond_of (svals : List ℝ) : Option ℝ :=
  if 2 ≤ svals.length ∧ 0 < svals.getD (svals.length - 1) 0
  then some (svals.getD 0 0 / svals.getD (svals.length - 1) 0)
  else none

open Classical in
/-- The rank reported with the singular values: in exact arithmetic the rank
of the design matrix is the number of nonzero singular values. -/
noncomputable def rank_of (svals : List ℝ) : ℕ := svals.countP (fun s => decide (s ≠ 0))

/-- Degree-to-radian conversion `np.deg2rad` / `math.radians`. -/
noncomputable def deg2rad (d : ℝ) : ℝ := d * (Real.pi / 180)

/-- Embedding of `build_A(az_deg, elev_rad)`: one row per ray with columns
`cos θ cos φ, sin θ cos φ, sin φ`. -/
noncomputable def build_A (az_deg : List ℝ) (elev_rad : ℝ) :
    Matrix (Fin az_deg.length) (Fin 3) ℝ :=
  Matrix.of fun i j =>
    ![Real.cos (deg2rad (az_deg.get i)) * Real.cos elev_rad,
      Real.sin (deg2rad (az_deg.get i)) * Real.cos elev_rad,
      Real.sin elev_rad] j

/-- Characterization of `np.linalg.lstsq(A, b)`: any least-squares solution
(in particular the minimum-norm one the routine returns) satisfies the normal
equations `Aᵀ A x = Aᵀ b`; for a full-column-rank `A` this pins the solution
down uniquely. -/
def isLstsqSolution {m n : ℕ} (A : Matrix (Fin m) (Fin n) ℝ) (b : Fin m → ℝ)
    (x : Fin n → ℝ) : Prop :=
  (Aᵀ * A).mulVec x = Aᵀ.mulVec b

/-- The four synthetic azimuths 0°, 90°, 180°, 270°. -/
noncomputable def az4 : List ℝ := [0, 90, 180, 270]

/-- Design matrix of the synthetic scan: azimuths `az4` at elevation 75°. -/
noncomputable def A75 : Matrix (Fin 4) (Fin 3) ℝ := build_A az4 (deg2rad 75)

/-- The true wind `(u, v, w) = (5, 3, 0)` of the synthetic test. -/
noncomputable def wTrue : Fin 3 → ℝ := ![5, 3, 0]

/-- Cosine of the 75° elevation. -/
noncomputable def c75 : ℝ := Real.cos (deg2rad 75)

/-- Sine of the 75° elevation. -/
noncomputable def s75 : ℝ := Real.sin (deg2rad 75)

/-- Synthetic radial velocities generated from the true wind by the VAD
forward model. -/
noncomputable def vrTrue : Fin 4 → ℝ := A75.mulVec wTrue

end VAD

namespace QC

/-- The floor in `gate_m` makes the empty-list branch irrelevant: the base is
always `max ((mad vrs med).getD (1/20)) (1/20)`. -/
theorem gate_m_eq (vrs : List ℚ) (med : ℚ) :
    gate_m vrs (some med) = max ((mad vrs med).getD (1 / 20)) (1 / 20) := by
  unfold gate_m
  rcases h : vrs with _ | ⟨a, l⟩
  · simp [mad]
  · simp [h]

/-- C1: for every row written by the QC rule engine, `qc_selected` is true
exactly when `qc_failed_rule_count` is 0, and the count is the number of
active rules whose predicate fails on the row — every active rule is
evaluated, with no short-circuit. -/
theorem qc_selected_iff_no_failures
    (rules : List (ℤ × String × (Row → Ctx → Bool))) (ctx : Ctx)
    (hid : ℤ) (row : Row) :
    ((tagRow rules ctx hid row).qc_selected = true ↔
      (tagRow rules ctx hid row).qc_failed_rule_count = 0) ∧
    (tagRow rules ctx hid row).qc_failed_rule_count =
      rules.countP (fun r => !(r.2.2 row ctx)) := by
  unfold tagRow
  simp [List.isEmpty_iff, List.length_eq_zero, List.countP_eq_length_filter]

/-- C4: once the gate median is defined, a row is flagged as an outlier
exactly when the absolute deviation of its radial velocity from the gate
median exceeds `MAD_K * 1.4826 * max (MAD, 0.05)` (a missing radial velocity
is also flagged). -/
theorem mad_outlier_iff (lst : List Row) (med : ℚ)
    (h : median (gateVrs lst) = some med) :
    gate_mad_fail lst = lst.map (fun x => (rowKey x,
      match x.doppler_ms with
      | none => true
      | some v =>
        decide (|v - med| >
          MAD_K * (MAD_SCALE * max ((mad (gateVrs lst) med).getD (1 / 20)) (1 / 20))))) := by
  have hm : (0 : ℚ) < MAD_SCALE * max ((mad (gateVrs lst) med).getD (1 / 20)) (1 / 20) := by
    have h1 : (0 : ℚ) < MAD_SCALE := by norm_num [MAD_SCALE]
    have h2 : (0 : ℚ) < max ((mad (gateVrs lst) med).getD (1 / 20)) (1 / 20) :=
      lt_of_lt_of_le (by norm_num) (le_max_right _ _)
    exact mul_pos h1 h2
  simp only [gate_mad_fail, h]
  refine List.map_congr_left ?_
  intro x _
  rw [gate_m_eq]
  rcases hx : x.doppler_ms with _ | v
  · simp [mad_flag]
  · simp only [mad_flag]
    refine congrArg (Prod.mk (rowKey x)) ?_
    rw [decide_eq_decide]
    simp only [gt_iff_lt]
    exact lt_div_iff₀ hm

/-- C4 witness: the gate with radial velocities `[1, 1, 1, 1, 50]` has median
1, and only the ray with velocity 50 is flagged. -/
theorem mad_outlier_iff_witness :
    median (gateVrs exMadGate) = some 1 ∧
    gate_mad_fail exMadGate =
      [((0, 0), false), ((0, 1), false), ((0, 2), false), ((0, 3), false), ((0, 4), true)] := by
  have h : median (gateVrs exMadGate) = some 1 := by
    norm_num [exMadGate, mkRowV, gateVrs, median, sortedList, insertSorted, List.getD]
  have hg : gateVrs exMadGate = [1, 1, 1, 1, 50] := rfl
  have hmad : mad ([1, 1, 1, 1, 50] : List ℚ) 1 = some 0 := by
    have hne : ([1, 1, 1, 1, 50] : List ℚ) ≠ [] := by simp
    simp only [mad, if_neg hne]
    norm_num [median, sortedList, insertSorted, List.getD, abs_of_nonneg]
  refine ⟨h, ?_⟩
  rw [mad_outlier_iff exMadGate 1 h]
  simp only [hg, hmad, Option.getD_some]
  norm_num [exMadGate, mkRowV, rowKey, MAD_K, MAD_SCALE, max_def, abs_of_nonneg]

/-- C10: when the header's instrument spectral width is absent or not
positive, the spectral-width rule compares the row's spectral width against
the fixed fallback threshold `K_SW * 1.0 = 1.5` m/s. -/
theorem spectral_width_fallback (row : Row) (ctx : Ctx)
    (h : ctx.instrument_spectral_width_ms = none ∨
      ∃ v, ctx.instrument_spectral_width_ms = some v ∧ v ≤ 0) :
    check_spectral_width_max row ctx =
      decide (safeFloatD row.spectral_width_ms 0 ≤ K_SW * 1) ∧
    K_SW * 1 = 3 / 2 := by
  constructor
  · have hns : ¬ (safeFloatD ctx.instrument_spectral_width_ms 0 > 0) := by
      rcases h with h | ⟨v, hv, hvle⟩
      · simp [safeFloatD, h]
      · simp only [safeFloatD, hv, Option.getD_some, gt_iff_lt, not_lt]
        exact hvle
    simp only [check_spectral_width_max]
    rw [if_neg hns]
  · norm_num [K_SW]

/-- C10 witness: with no instrument spectral width in the context, a row with
spectral width 2 m/s is compared against 1.5 m/s (and fails). -/
theorem spectral_width_fallback_witness :
    (emptyCtx.instrument_spectral_width_ms = none ∨
      ∃ v, emptyCtx.instrument_spectral_width_ms = some v ∧ v ≤ 0) ∧
    (check_spectral_width_max exSwRow emptyCtx =
        decide (safeFloatD exSwRow.spectral_width_ms 0 ≤ K_SW * 1) ∧
      K_SW * 1 = 3 / 2) ∧
    check_spectral_width_max exSwRow emptyCtx = false := by
  refine ⟨Or.inl rfl, spectral_width_fallback exSwRow emptyCtx (Or.inl rfl), ?_⟩
  norm_num [check_spectral_width_max, exSwRow, emptyCtx, safeFloatD, K_SW]

/-- C3 counterexample: an active rule whose identifier is not registered does
not raise — it is silently dropped from the snapshot (and an empty active set
stays empty), after which processing proceeds and tags the row as selected
with a zero failure count. -/
theorem unregistered_rule_no_error :
    snapshot_rules [(99, "no_such_predicate")] = [] ∧
    snapshot_rules [] = [] ∧
    tagRow (snapshot_rules [(99, "no_such_predicate")]) emptyCtx 1 exPendingRow =
      { qc_selected := true, qc_failed_rules_csv := none, qc_failed_rule_count := 0
        header_id := 1, range_gate_index := 5, ray_idx := 0 } := by
  have h : snapshot_rules [(99, "no_such_predicate")] = [] := by
    simp [snapshot_rules, RULE_REGISTRY]
  refine ⟨h, rfl, ?_⟩
  rw [h]
  rfl

/-- C3 amended: an active rule identifier with no registered predicate is
silently skipped by the snapshot step; with no predicates left the QC pass
still runs and tags every row as selected with `failed_rule_count = 0` — no
setup error is raised and no processing is prevented. -/
theorem unregistered_rule_skipped (rid : ℤ) (name : String)
    (h : RULE_REGISTRY.lookup name = none) (ctx : Ctx) (hid : ℤ) (row : Row) :
    snapshot_rules [(rid, name)] = [] ∧
    (tagRow (snapshot_rules [(rid, name)]) ctx hid row).qc_selected = true ∧
    (tagRow (snapshot_rules [(rid, name)]) ctx hid row).qc_failed_rule_count = 0 := by
  have hs : snapshot_rules [(rid, name)] = [] := by
    simp [snapshot_rules, h]
  rw [hs]
  exact ⟨rfl, rfl, rfl⟩

/-- C3 amended witness: the unregistered identifier `no_such_predicate` is
dropped and the row still gets tagged. -/
theorem unregistered_rule_skipped_witness :
    RULE_REGISTRY.lookup ("no_such_predicate") = none ∧
    (snapshot_rules [(99, "no_such_predicate")] = [] ∧
      (tagRow (snapshot_rules [(99, "no_such_predicate")]) emptyCtx 1
          exPendingRow).qc_selected = true ∧
      (tagRow (snapshot_rules [(99, "no_such_predicate")]) emptyCtx 1
          exPendingRow).qc_failed_rule_count = 0) := by
  have h : RULE_REGISTRY.lookup ("no_such_predicate") = none := by
    simp [RULE_REGISTRY]
  exact ⟨h, unregistered_rule_skipped 99 ("no_such_predicate") h emptyCtx 1 exPendingRow⟩

/-- C8: the "unevaluated" sentinel (`selected = false` and
`failed_rule_count = 0`) is not a reachable post-evaluation state: every row
the engine writes either passes with a zero count or fails with a positive
count, so an evaluated row never matches `fetch_pending_headers` again. -/
theorem tagged_row_never_pending
    (rules : List (ℤ × String × (Row → Ctx → Bool))) (ctx : Ctx)
    (hid : ℤ) (row : Row) :
    qc_pending_row (tagRow rules ctx hid row).qc_selected
      (tagRow rules ctx hid row).qc_failed_rule_count = false ∧
    (((tagRow rules ctx hid row).qc_selected = true ∧
        (tagRow rules ctx hid row).qc_failed_rule_count = 0) ∨
      ((tagRow rules ctx hid row).qc_selected = false ∧
        0 < (tagRow rules ctx hid row).qc_failed_rule_count)) := by
  unfold tagRow qc_pending_row
  rcases h : (rules.filter (fun r => !(r.2.2 row ctx))).map (fun r => r.1) with _ | ⟨a, l⟩ <;>
    simp [h]

/-- Stable insertion only reorders: the result is a permutation of consing. -/
theorem insertSorted_perm {α : Type} (lt : α → α → Bool) (a : α) (l : List α) :
    (insertSorted lt a l).Perm (a :: l) := by
  induction l with
  | nil => simp [insertSorted]
  | cons b t ih =>
    simp only [insertSorted]
    by_cases hb : lt b a
    · rw [if_pos hb]
      exact (ih.cons b).trans (List.Perm.swap a b t)
    · rw [if_neg hb]

/-- The stable sort permutes its input. -/
theorem sortedList_perm {α : Type} (lt : α → α → Bool) (l : List α) :
    (sortedList lt l).Perm l := by
  induction l with
  | nil => simp [sortedList]
  | cons x xs ih => exact (insertSorted_perm lt x (sortedList lt xs)).trans (ih.cons x)

/-- In an association list whose keys are distinct, lookup finds the value of
any member. -/
theorem lookup_eq_some_of_mem {α β : Type} [BEq α] [LawfulBEq α]
    (l : List (α × β)) (hnd : (l.map Prod.fst).Nodup) {k : α} {v : β}
    (hm : (k, v) ∈ l) : l.lookup k = some v := by
  induction l with
  | nil => simp at hm
  | cons p t ih =>
    rcases List.mem_cons.mp hm with h | h
    · rw [← h]
      simp [List.lookup]
    · have hk : k ≠ p.1 := by
        intro he
        exact (List.nodup_cons.mp (by simpa using hnd)).1
          (he ▸ List.mem_map_of_mem Prod.fst h)
      obtain ⟨p1, p2⟩ := p
      simp only [List.lookup, beq_eq_false_iff_ne.mpr hk]
      exact ih (List.nodup_cons.mp (by simpa using hnd)).2 h

/-- The duplicate-flag entries of the snapping loop are keyed by the input
rows, in processing order. -/
theorem snapLoop_dup_keys (tol : ℚ) (l : List (ℤ × ℤ × Option ℚ)) :
    ∀ seen, (snapLoop tol seen l).2.1.map Prod.fst = l.map (fun x => (x.1, x.2.1)) := by
  induction l with
  | nil => intro seen; simp [snapLoop]
  | cons x rest ih =>
    intro seen
    obtain ⟨gi, ray, az⟩ := x
    rcases az with _ | a
    · simp [snapLoop, ih]
    · rcases hf : seen.find? (circDistLe tol a) with _ | rep <;> simp [snapLoop, hf, ih]

/-- The canonical-azimuth entries of the snapping loop are keyed by the input
rows, in processing order. -/
theorem snapLoop_canon_keys (tol : ℚ) (l : List (ℤ × ℤ × Option ℚ)) :
    ∀ seen, (snapLoop tol seen l).1.map Prod.fst = l.map (fun x => (x.1, x.2.1)) := by
  induction l with
  | nil => intro seen; simp [snapLoop]
  | cons x rest ih =>
    intro seen
    obtain ⟨gi, ray, az⟩ := x
    rcases az with _ | a
    · simp [snapLoop, ih]
    · rcases hf : seen.find? (circDistLe tol a) with _ | rep <;> simp [snapLoop, hf, ih]

/-- A `none`-azimuth input row yields a `none` canonical entry and a `true`
duplicate flag in the snapping loop's output. -/
theorem snapLoop_none_mem (tol : ℚ) (gi ray : ℤ) :
    ∀ (l : List (ℤ × ℤ × Option ℚ)) (seen : List ℚ),
      (gi, ray, (none : Option ℚ)) ∈ l →
      ((gi, ray), (none : Option ℚ)) ∈ (snapLoop tol seen l).1 ∧
        ((gi, ray), true) ∈ (snapLoop tol seen l).2.1 := by
  intro l
  induction l with
  | nil => intro seen h; simp at h
  | cons x rest ih =>
    intro seen h
    obtain ⟨gi2, ray2, az⟩ := x
    rcases List.mem_cons.mp h with he | hm
    · injection he with h1 h23
      injection h23 with h2 h3
      subst h1
      subst h2
      rw [← h3]
      constructor <;> simp [snapLoop]
    · rcases az with _ | a
      · have hrec := ih seen hm
        constructor <;> simp [snapLoop, hrec.1, hrec.2]
      · rcases hf : seen.find? (circDistLe tol a) with _ | rep
        · have hrec := ih (seen ++ [a]) hm
          constructor <;> simp [snapLoop, hf, hrec.1, hrec.2]
        · have hrec := ih seen hm
          constructor <;> simp [snapLoop, hf, hrec.1, hrec.2]

/-- Each canonical entry of the snapping loop satisfies `canonRel`: a null
azimuth gets no canonical value, and a present azimuth is canonicalized to
itself or to a representative within tolerance. -/
theorem snapLoop_canon_spec (tol : ℚ) :
    ∀ (l : List (ℤ × ℤ × Option ℚ)) (seen : List ℚ),
      List.Forall₂ (fun x e => e.1 = (x.1, x.2.1) ∧ canonRel tol x.2.2 e.2)
        l (snapLoop tol seen l).1 := by
  intro l
  induction l with
  | nil => intro seen; simp [snapLoop]
  | cons x rest ih =>
    intro seen
    obtain ⟨gi, ray, az⟩ := x
    rcases az with _ | a
    · exact List.Forall₂.cons ⟨rfl, rfl⟩ (ih seen)
    · rcases hf : seen.find? (circDistLe tol a) with _ | rep
      · simp only [snapLoop, hf]
        exact List.Forall₂.cons ⟨rfl, Or.inl rfl⟩ (ih (seen ++ [a]))
      · simp only [snapLoop, hf]
        exact List.Forall₂.cons ⟨rfl, Or.inr ⟨rep, rfl, List.find?_some hf⟩⟩ (ih seen)

/-- Normalization lands in `[0, 360)`: `qmod a 360` is nonnegative and below
360. -/
theorem qmod_mem_Ico (a : ℚ) : 0 ≤ qmod a 360 ∧ qmod a 360 < 360 := by
  have key : qmod a 360 = 360 * Int.fract (a / 360) := by
    rw [qmod, Int.fract]
    field_simp
  rw [key]
  constructor
  · exact mul_nonneg (by norm_num) (Int.fract_nonneg _)
  · have h1 : Int.fract (a / 360) < 1 := Int.fract_lt_one _
    nlinarith [Int.fract_nonneg (a / 360)]

/-- C9: a row with a null azimuth is marked as a duplicate with no canonical
value by azimuth canonicalization, so it fails the azimuth-duplicate-guard
rule in addition to failing the null-check rule. -/
theorem null_azimuth_fails_dup_guard (rows : List Row) (tol : ℚ) (r : Row)
    (hr : r ∈ rows) (haz : r.azimuth_deg = none)
    (hnd : (rows.map rowKey).Nodup) (ctx : Ctx)
    (hctx : ctx.az_dup_by_rowkey = (snap_azimuths_per_gate rows tol).2.1) :
    (snap_azimuths_per_gate rows tol).2.1.lookup (rowKey r) = some true ∧
    (snap_azimuths_per_gate rows tol).1.lookup (rowKey r) = some none ∧
    check_azimuth_duplicate_guard r ctx = false ∧
    check_nulls r ctx = false := by
  have hmem0 : (r.range_gate_index, r.ray_idx, (none : Option ℚ)) ∈
      rows.map (fun s => (s.range_gate_index, s.ray_idx, norm360 s.azimuth_deg)) :=
    List.mem_map.mpr ⟨r, hr, by
      show (r.range_gate_index, r.ray_idx, norm360 r.azimuth_deg) = _
      rw [haz]
      rfl⟩
  have hmem : (r.range_gate_index, r.ray_idx, (none : Option ℚ)) ∈
      sortedList (fun a b => decide (snapKey a < snapKey b))
        (rows.map (fun s => (s.range_gate_index, s.ray_idx, norm360 s.azimuth_deg))) :=
    (sortedList_perm _ _).mem_iff.mpr hmem0
  have hkeys : ((sortedList (fun a b => decide (snapKey a < snapKey b))
      (rows.map (fun s => (s.range_gate_index, s.ray_idx, norm360 s.azimuth_deg)))).map
        (fun x => (x.1, x.2.1))).Nodup := by
    have hperm := (sortedList_perm (fun a b => decide (snapKey a < snapKey b))
      (rows.map (fun s => (s.range_gate_index, s.ray_idx, norm360 s.azimuth_deg)))).map
        (fun x => (x.1, x.2.1))
    refine hperm.nodup_iff.mpr ?_
    rw [List.map_map]
    exact hnd
  have hsl := snapLoop_none_mem tol r.range_gate_index r.ray_idx
    (sortedList (fun a b => decide (snapKey a < snapKey b))
      (rows.map (fun s => (s.range_gate_index, s.ray_idx, norm360 s.azimuth_deg)))) [] hmem
  have hdup2 : ((snapLoop tol []
      (sortedList (fun a b => decide (snapKey a < snapKey b))
        (rows.map (fun s =>
          (s.range_gate_index, s.ray_idx, norm360 s.azimuth_deg))))).2.1).lookup
        (rowKey r) = some true := by
    refine lookup_eq_some_of_mem _ ?_ hsl.2
    rw [snapLoop_dup_keys]
    exact hkeys
  have hcanon2 : ((snapLoop tol []
      (sortedList (fun a b => decide (snapKey a < snapKey b))
        (rows.map (fun s =>
          (s.range_gate_index, s.ray_idx, norm360 s.azimuth_deg))))).1).lookup
        (rowKey r) = some none := by
    refine lookup_eq_some_of_mem _ ?_ hsl.1
    rw [snapLoop_canon_keys]
    exact hkeys
  have hdup : (snap_azimuths_per_gate rows tol).2.1.lookup (rowKey r) = some true := hdup2
  have hcanon : (snap_azimuths_per_gate rows tol).1.lookup (rowKey r) = some none := hcanon2
  refine ⟨hdup, hcanon, ?_, ?_⟩
  · simp [check_azimuth_duplicate_guard, hctx, hdup]
  · simp [check_nulls, haz]

/-- C9 witness: in a gate whose second row has a null azimuth, that row is
marked duplicate, has no canonical azimuth, and fails both the duplicate
guard and the null check. -/
theorem null_azimuth_fails_dup_guard_witness :
    (mkRowAz 1 none ∈ exNullAzRows ∧ (mkRowAz 1 none).azimuth_deg = none ∧
      (exNullAzRows.map rowKey).Nodup ∧
      exNullAzCtx.az_dup_by_rowkey = (snap_azimuths_per_gate exNullAzRows AZ_DUP_TOL).2.1) ∧
    ((snap_azimuths_per_gate exNullAzRows AZ_DUP_TOL).2.1.lookup (rowKey (mkRowAz 1 none)) =
        some true ∧
      (snap_azimuths_per_gate exNullAzRows AZ_DUP_TOL).1.lookup (rowKey (mkRowAz 1 none)) =
        some none ∧
      check_azimuth_duplicate_guard (mkRowAz 1 none) exNullAzCtx = false ∧
      check_nulls (mkRowAz 1 none) exNullAzCtx = false) := by
  have h1 : mkRowAz 1 none ∈ exNullAzRows := by simp [exNullAzRows]
  have h2 : (mkRowAz 1 none).azimuth_deg = none := rfl
  have h3 : (exNullAzRows.map rowKey).Nodup := by
    decide
  have h4 : exNullAzCtx.az_dup_by_rowkey =
      (snap_azimuths_per_gate exNullAzRows AZ_DUP_TOL).2.1 := rfl
  exact ⟨⟨h1, h2, h3, h4⟩,
    null_azimuth_fails_dup_guard exNullAzRows AZ_DUP_TOL (mkRowAz 1 none) h1 h2 h3
      exNullAzCtx h4⟩

/-- C5 counterexample: canonicalization does not merge every pair of azimuths
within tolerance into one canonical value.  With tolerance 0.1°, the gate
azimuths 10°, 10.08°, 10.16° give 10.08° the canonical value 10 while 10.16°
becomes its own canonical value, even though 10.08° and 10.16° are within
tolerance of each other. -/
theorem azimuth_merge_not_transitive :
    circDistLe AZ_DUP_TOL (1008 / 100) (1016 / 100) = true ∧
    (snap_azimuths_per_gate exChainRows AZ_DUP_TOL).1 =
      [((0, 0), some 10), ((0, 1), some 10), ((0, 2), some (1016 / 100))] ∧
    ((10 : ℚ) ≠ 1016 / 100) := by
  have e1 : norm360 (some 10) = some 10 := by
    norm_num [norm360, qmod, AZ_DUP_TOL, abs_sub_le_iff, abs_le]
  have e2 : norm360 (some (1008 / 100)) = some (1008 / 100) := by
    norm_num [norm360, qmod, AZ_DUP_TOL, abs_sub_le_iff, abs_le]
  have e3 : norm360 (some (1016 / 100)) = some (1016 / 100) := by
    norm_num [norm360, qmod, AZ_DUP_TOL, abs_sub_le_iff, abs_le]
  refine ⟨by norm_num [circDistLe, AZ_DUP_TOL, min_def, abs_of_nonneg, abs_of_nonpos],
    ?_, by norm_num⟩
  simp only [snap_azimuths_per_gate, exChainRows, mkRowAz, List.map, e1, e2, e3]
  norm_num [sortedList, insertSorted, snapKey, snapLoop, circDistLe, List.find?, min_def,
    AZ_DUP_TOL, abs_sub_le_iff, abs_le, abs_of_nonneg, abs_of_nonpos]

/-- C5 amended: azimuth normalization lands in `[0, 360)` and collapses values
within tolerance of 0/360 to 0; within a gate, each azimuth's canonical value
is either itself or an earlier-seen canonical value within the circular
tolerance (first seen — smallest after the ascending sort — wins), so two
azimuths within tolerance of each other can still receive different canonical
values; 359.95° and 0.05° canonicalize to the same value 0, while 0° and 180°
do not merge. -/
theorem azimuth_canonicalization_amended :
    (∀ a b : ℚ, norm360 (some a) = some b → 0 ≤ b ∧ b < 360) ∧
    (∀ a : ℚ, |qmod a 360 - 360| ≤ AZ_DUP_TOL ∨ |qmod a 360| ≤ AZ_DUP_TOL →
      norm360 (some a) = some 0) ∧
    (∀ (rows : List Row) (tol : ℚ),
      List.Forall₂ (fun x e => e.1 = (x.1, x.2.1) ∧ canonRel tol x.2.2 e.2)
        (sortedList (fun a b => decide (snapKey a < snapKey b))
          (rows.map (fun r => (r.range_gate_index, r.ray_idx, norm360 r.azimuth_deg))))
        (snap_azimuths_per_gate rows tol).1) ∧
    (norm360 (some (35995 / 100)) = some 0 ∧ norm360 (some (1 / 20)) = some 0) ∧
    (snap_azimuths_per_gate exWrapRows AZ_DUP_TOL).1 = [((0, 0), some 0), ((0, 1), some 0)] ∧
    (snap_azimuths_per_gate exFarRows AZ_DUP_TOL).1 = [((0, 0), some 0), ((0, 1), some 180)] ∧
    (snap_azimuths_per_gate exFarRows AZ_DUP_TOL).2.1 = [((0, 0), false), ((0, 1), false)] := by
  have ew1 : norm360 (some (35995 / 100)) = some 0 := by
    norm_num [norm360, qmod, AZ_DUP_TOL, abs_sub_le_iff, abs_le]
  have ew2 : norm360 (some (1 / 20)) = some 0 := by
    norm_num [norm360, qmod, AZ_DUP_TOL, abs_sub_le_iff, abs_le]
  have ef1 : norm360 (some 0) = some 0 := by
    norm_num [norm360, qmod, AZ_DUP_TOL, abs_sub_le_iff, abs_le]
  have ef2 : norm360 (some 180) = some 180 := by
    norm_num [norm360, qmod, AZ_DUP_TOL, abs_sub_le_iff, abs_le]
  refine ⟨?_, ?_, ?_, ⟨ew1, ew2⟩, ?_, ?_, ?_⟩
  · intro a b hb
    simp only [norm360] at hb
    by_cases hcol : |qmod a 360 - 360| ≤ AZ_DUP_TOL ∨ |qmod a 360| ≤ AZ_DUP_TOL
    · rw [if_pos hcol] at hb
      injection hb with hb
      rw [← hb]
      norm_num
    · rw [if_neg hcol] at hb
      injection hb with hb
      rw [← hb]
      exact qmod_mem_Ico a
  · intro a h
    simp only [norm360]
    rw [if_pos h]
  · intro rows tol
    exact snapLoop_canon_spec tol _ []
  · simp only [snap_azimuths_per_gate, exWrapRows, mkRowAz, List.map, ew1, ew2]
    norm_num [sortedList, insertSorted, snapKey, snapLoop, circDistLe, List.find?, min_def,
      AZ_DUP_TOL, abs_sub_le_iff, abs_le, abs_of_nonneg, abs_of_nonpos]
  · simp only [snap_azimuths_per_gate, exFarRows, mkRowAz, List.map, ef1, ef2]
    norm_num [sortedList, insertSorted, snapKey, snapLoop, circDistLe, List.find?, min_def,
      AZ_DUP_TOL, abs_sub_le_iff, abs_le, abs_of_nonneg, abs_of_nonpos]
  · simp only [snap_azimuths_per_gate, exFarRows, mkRowAz, List.map, ef1, ef2]
    norm_num [sortedList, insertSorted, snapKey, snapLoop, circDistLe, List.find?, min_def,
      AZ_DUP_TOL, abs_sub_le_iff, abs_le, abs_of_nonneg, abs_of_nonpos]

/-- C5 amended witness: 365° normalizes to 5°, which lies in `[0, 360)`. -/
theorem azimuth_canonicalization_amended_witness :
    norm360 (some 365) = some 5 ∧ (0 ≤ (5 : ℚ) ∧ (5 : ℚ) < 360) := by
  have h : norm360 (some 365) = some 5 := by
    norm_num [norm360, qmod, AZ_DUP_TOL, abs_sub_le_iff, abs_le]
  exact ⟨h, azimuth_canonicalization_amended.1 365 5 h⟩

end QC

namespace VAD

open Matrix

/-- With distinct keys, the find of the upsert locates exactly the stored
record that carries the probed key. -/
theorem find?_key_eq_of_mem (table : List FitRecord) (rold : FitRecord) (key : ℤ × ℤ)
    (hnd : (table.map fitKey).Nodup) (hmem : rold ∈ table) (hkey : fitKey rold = key) :
    table.find? (fun t => decide (fitKey t = key)) = some rold := by
  induction table with
  | nil => simp at hmem
  | cons p t ih =>
    rcases List.mem_cons.mp hmem with he | hm
    · subst he
      exact List.find?_cons_of_pos _ (by simp [hkey])
    · have hp : ¬ (fitKey p = key) := by
        intro hpe
        have hmemk : key ∈ t.map fitKey := hkey ▸ List.mem_map_of_mem fitKey hm
        exact (List.nodup_cons.mp (by simpa using hnd)).1 (hpe ▸ hmemk)
      rw [List.find?_cons_of_neg _ (by simp [hp])]
      exact ih (List.nodup_cons.mp (by simpa using hnd)).2 hm

/-- C6 amended: the fit store stays keyed uniquely by
`(header, range-gate)`; re-solving an existing key keeps a single row and
overwrites every stored field with the new batch's values — including the
rule tag — except `run_id`, which keeps the value of the run that first
inserted the key. -/
theorem upsert_overwrites_except_run_id (table : List FitRecord) (rold rnew : FitRecord)
    (hnd : (table.map fitKey).Nodup) (hmem : rold ∈ table)
    (hkey : fitKey rold = fitKey rnew) :
    ((upsertOne table rnew).map fitKey).Nodup ∧
    (upsertOne table rnew).length = table.length ∧
    { rnew with run_id := rold.run_id } ∈ upsertOne table rnew ∧
    (∀ t ∈ upsertOne table rnew, fitKey t = fitKey rnew →
      t = { rnew with run_id := rold.run_id }) := by
  have hfind : table.find? (fun t => decide (fitKey t = fitKey rnew)) = some rold :=
    find?_key_eq_of_mem table rold (fitKey rnew) hnd hmem hkey
  have hup : upsertOne table rnew =
      table.map (fun t =>
        if fitKey t = fitKey rnew then { rnew with run_id := t.run_id } else t) := by
    simp only [upsertOne, hfind]
  have hkeys : (upsertOne table rnew).map fitKey = table.map fitKey := by
    rw [hup, List.map_map]
    refine List.map_congr_left ?_
    intro t _
    simp only [Function.comp]
    by_cases ht : fitKey t = fitKey rnew
    · rw [if_pos ht, ht]
      rfl
    · rw [if_neg ht]
  refine ⟨?_, ?_, ?_, ?_⟩
  · rw [hkeys]
    exact hnd
  · rw [hup, List.length_map]
  · rw [hup]
    refine List.mem_map.mpr ⟨rold, hmem, ?_⟩
    show (if fitKey rold = fitKey rnew then _ else _) = _
    rw [if_pos hkey]
  · intro t ht hteq
    rw [hup] at ht
    obtain ⟨s, hs, hst⟩ := List.mem_map.mp ht
    by_cases hsk : fitKey s = fitKey rnew
    · rw [if_pos hsk] at hst
      have hs_eq : s = rold := by
        have h1 := find?_key_eq_of_mem table s (fitKey rnew) hnd hs hsk
        have := h1.symm.trans hfind
        injection this
      rw [← hst, hs_eq]
    · rw [if_neg hsk] at hst
      rw [← hst] at hteq
      exact absurd hteq hsk

/-- C6 amended witness: re-solving the stored key of `baseFit` with `refit`
keeps one row, keyed the same, equal to `refit` except that `run_id` stays
`baseFit`'s. -/
theorem upsert_overwrites_except_run_id_witness :
    ((([baseFit] : List FitRecord).map fitKey).Nodup ∧ baseFit ∈ [baseFit] ∧
      fitKey baseFit = fitKey refit) ∧
    (((upsertOne [baseFit] refit).map fitKey).Nodup ∧
      (upsertOne [baseFit] refit).length = ([baseFit] : List FitRecord).length ∧
      { refit with run_id := baseFit.run_id } ∈ upsertOne [baseFit] refit ∧
      (∀ t ∈ upsertOne [baseFit] refit, fitKey t = fitKey refit →
        t = { refit with run_id := baseFit.run_id })) := by
  have h1 : (([baseFit] : List FitRecord).map fitKey).Nodup := by simp
  have h2 : baseFit ∈ ([baseFit] : List FitRecord) := by simp
  have h3 : fitKey baseFit = fitKey refit := rfl
  exact ⟨⟨h1, h2, h3⟩, upsert_overwrites_except_run_id [baseFit] baseFit refit h1 h2 h3⟩

/-- C6 counterexample: upserting a re-solve (`run_id = 2`) over the stored
result of run 1 for the same `(header, gate)` key leaves the stored `run_id`
at 1: the run provenance is not overwritten, refuting "overwrites the prior
stored result in place (including its run provenance)" and "tagged with that
batch's current run id". -/
theorem upsert_keeps_first_run_id :
    bulk_upsert (bulk_upsert [] [baseFit]) [refit] = [{ refit with run_id := 1 }] ∧
    ({ refit with run_id := 1 }).run_id ≠ refit.run_id := by
  constructor
  · rfl
  · decide

/-- The last entry (at index `length - 1`) of a nonempty list is a member. -/
theorem getD_last_mem : ∀ (l : List ℝ), l ≠ [] → l.getD (l.length - 1) 0 ∈ l := by
  intro l
  induction l with
  | nil => intro h; exact absurd rfl h
  | cons a t ih =>
    intro _
    by_cases hne : t = []
    · subst hne
      simp [List.getD]
    · have hlen : 1 ≤ t.length := List.length_pos.mpr hne
      have hidx : (a :: t).length - 1 = (t.length - 1) + 1 := by
        simp only [List.length_cons]
        omega
      rw [hidx, List.getD_cons_succ]
      exact List.mem_cons_of_mem a (ih hne)

/-- In a descending-sorted list the head bounds every member from above. -/
theorem le_headD_of_sorted_ge (l : List ℝ) (hs : List.Sorted (· ≥ ·) l) :
    ∀ x ∈ l, x ≤ l.getD 0 0 := by
  cases l with
  | nil => intro x hx; simp at hx
  | cons a t =>
    intro x hx
    rcases List.mem_cons.mp hx with rfl | hx
    · simp [List.getD]
    · simpa using (List.sorted_cons.mp hs).1 x hx

/-- In a descending-sorted list the last entry bounds every member from
below. -/
theorem lastD_le_of_sorted_ge : ∀ (l : List ℝ), List.Sorted (· ≥ ·) l →
    ∀ x ∈ l, l.getD (l.length - 1) 0 ≤ x := by
  intro l
  induction l with
  | nil => intro _ x hx; simp at hx
  | cons a t ih =>
    intro hs x hx
    by_cases hne : t = []
    · subst hne
      rcases List.mem_cons.mp hx with rfl | hx
      · simp [List.getD]
      · simp at hx
    · have hlen : 1 ≤ t.length := List.length_pos.mpr hne
      have hidx : (a :: t).length - 1 = (t.length - 1) + 1 := by
        simp only [List.length_cons]
        omega
      rw [hidx, List.getD_cons_succ]
      rcases List.mem_cons.mp hx with rfl | hx
      · exact (List.sorted_cons.mp hs).1 _ (getD_last_mem t hne)
      · exact ih (List.sorted_cons.mp hs).2 x hx

/-- C7: the solver's diagnostics satisfy the spec's formulas: R² is
`1 - SSres/SStot` with 0 for a zero SStot; RMSE squares to
`SSres / max (n-3) 1`; and the condition number is the ratio of the largest
(first) to the smallest (last) singular value, infinite exactly when the
rank (number of nonzero singular values) is below 2 or the smallest singular
value is 0. -/
theorem solver_diagnostics (n : ℕ) (y yhat : Fin n → ℝ) (svals : List ℝ)
    (hs : List.Sorted (· ≥ ·) svals) (hnn : ∀ x ∈ svals, 0 ≤ x) :
    (ss_tot_of y = 0 → r2_of y yhat = 0) ∧
    (ss_tot_of y ≠ 0 → r2_of y yhat = 1 - ss_res_of y yhat / ss_tot_of y) ∧
    (rmse_of y yhat) ^ 2 = ss_res_of y yhat / ((max ((n : ℤ) - 3) 1 : ℤ) : ℝ) ∧
    (cond_of svals = none ↔
      (rank_of svals < 2 ∨ svals.getD (svals.length - 1) 0 = 0)) ∧
    (∀ r, cond_of svals = some r →
      r = svals.getD 0 0 / svals.getD (svals.length - 1) 0 ∧
      ∀ x ∈ svals, svals.getD (svals.length - 1) 0 ≤ x ∧ x ≤ svals.getD 0 0) := by
  have hsstot : 0 ≤ ss_tot_of y := Finset.sum_nonneg fun i _ => sq_nonneg _
  have hssres : 0 ≤ ss_res_of y yhat := Finset.sum_nonneg fun i _ => sq_nonneg _
  refine ⟨?_, ?_, ?_, ?_, ?_⟩
  · intro h0
    simp only [r2_of]
    rw [if_neg]
    rw [h0]
    norm_num
  · intro hne
    simp only [r2_of]
    rw [if_pos (lt_of_le_of_ne hsstot (Ne.symm hne))]
  · have hden : (0 : ℝ) < ((max ((n : ℤ) - 3) 1 : ℤ) : ℝ) := by
      have : (1 : ℤ) ≤ max ((n : ℤ) - 3) 1 := le_max_right _ _
      exact_mod_cast lt_of_lt_of_le Int.zero_lt_one this
    simp only [rmse_of]
    exact Real.sq_sqrt (div_nonneg hssres (le_of_lt hden))
  · by_cases hc : 2 ≤ svals.length ∧ 0 < svals.getD (svals.length - 1) 0
    · simp only [cond_of, if_pos hc]
      constructor
      · intro h
        exact absurd h (by simp)
      · intro h
        rcases h with h | h
        · exfalso
          have hall : ∀ x ∈ svals, x ≠ 0 := fun x hx =>
            ne_of_gt (lt_of_lt_of_le hc.2 (lastD_le_of_sorted_ge svals hs x hx))
          have hrk : rank_of svals = svals.length := by
            simp only [rank_of]
            exact List.countP_eq_length.mpr fun a ha => decide_eq_true (hall a ha)
          rw [hrk] at h
          omega
        · exact absurd h (ne_of_gt hc.2)
    · simp only [cond_of, if_neg hc]
      constructor
      · intro _
        by_cases hlen : 2 ≤ svals.length
        · right
          have hlast_mem : svals.getD (svals.length - 1) 0 ∈ svals :=
            getD_last_mem svals (by
              intro he
              rw [he] at hlen
              simp at hlen)
          have hge : 0 ≤ svals.getD (svals.length - 1) 0 := hnn _ hlast_mem
          have hnotpos : ¬ 0 < svals.getD (svals.length - 1) 0 := fun hpos => hc ⟨hlen, hpos⟩
          linarith
        · left
          have hle : rank_of svals ≤ svals.length := List.countP_le_length _
          omega
      · intro _
        trivial
  · intro r hr
    by_cases hc : 2 ≤ svals.length ∧ 0 < svals.getD (svals.length - 1) 0
    · simp only [cond_of, if_pos hc] at hr
      injection hr with hr
      refine ⟨hr.symm, fun x hx => ⟨lastD_le_of_sorted_ge svals hs x hx,
        le_headD_of_sorted_ge svals hs x hx⟩⟩
    · simp only [cond_of, if_neg hc] at hr
      exact absurd hr (by simp)

/-- C7 witness: with 2 selected rays, observed `y = (0, 2)`, fitted
`yhat = (0, 0)` and singular values `[2, 1]`, the diagnostics formulas apply
(in particular the condition number is finite here). -/
theorem solver_diagnostics_witness :
    (List.Sorted (· ≥ ·) ([2, 1] : List ℝ) ∧ ∀ x ∈ ([2, 1] : List ℝ), 0 ≤ x) ∧
    ((ss_tot_of (![0, 2] : Fin 2 → ℝ) = 0 → r2_of ![0, 2] (![0, 0] : Fin 2 → ℝ) = 0) ∧
      (ss_tot_of (![0, 2] : Fin 2 → ℝ) ≠ 0 →
        r2_of ![0, 2] (![0, 0] : Fin 2 → ℝ) =
          1 - ss_res_of ![0, 2] (![0, 0] : Fin 2 → ℝ) / ss_tot_of (![0, 2] : Fin 2 → ℝ)) ∧
      (rmse_of ![0, 2] (![0, 0] : Fin 2 → ℝ)) ^ 2 =
        ss_res_of ![0, 2] (![0, 0] : Fin 2 → ℝ) / ((max (((2 : ℕ) : ℤ) - 3) 1 : ℤ) : ℝ) ∧
      (cond_of [2, 1] = none ↔
        (rank_of [2, 1] < 2 ∨
          ([2, 1] : List ℝ).getD (([2, 1] : List ℝ).length - 1) 0 = 0)) ∧
      (∀ r, cond_of [2, 1] = some r →
        r = ([2, 1] : List ℝ).getD 0 0 /
            ([2, 1] : List ℝ).getD (([2, 1] : List ℝ).length - 1) 0 ∧
        ∀ x ∈ ([2, 1] : List ℝ),
          ([2, 1] : List ℝ).getD (([2, 1] : List ℝ).length - 1) 0 ≤ x ∧
            x ≤ ([2, 1] : List ℝ).getD 0 0)) := by
  have hs : List.Sorted (· ≥ ·) ([2, 1] : List ℝ) := by
    norm_num [List.sorted_cons]
  have hnn : ∀ x ∈ ([2, 1] : List ℝ), 0 ≤ x := by
    intro x hx
    simp at hx
    rcases hx with rfl | rfl <;> norm_num
  exact ⟨⟨hs, hnn⟩, solver_diagnostics 2 ![0, 2] ![0, 0] [2, 1] hs hnn⟩

/-- The synthetic design matrix written out: the four azimuths give rows
`(±c75, 0, s75)` and `(0, ±c75, s75)`. -/
theorem A75_eq :
    A75 = !![c75, 0, s75; 0, c75, s75; -c75, 0, s75; 0, -c75, s75] := by
  have h0 : deg2rad 0 = 0 := by simp [deg2rad]
  have h90 : deg2rad 90 = Real.pi / 2 := by
    unfold deg2rad
    ring
  have h180 : deg2rad 180 = Real.pi := by
    unfold deg2rad
    ring
  have h270 : deg2rad 270 = Real.pi + Real.pi / 2 := by
    unfold deg2rad
    ring
  have hc0 : Real.cos (deg2rad 0) = 1 := by rw [h0, Real.cos_zero]
  have hs0 : Real.sin (deg2rad 0) = 0 := by rw [h0, Real.sin_zero]
  have hc90 : Real.cos (deg2rad 90) = 0 := by rw [h90, Real.cos_pi_div_two]
  have hs90 : Real.sin (deg2rad 90) = 1 := by rw [h90, Real.sin_pi_div_two]
  have hc180 : Real.cos (deg2rad 180) = -1 := by rw [h180, Real.cos_pi]
  have hs180 : Real.sin (deg2rad 180) = 0 := by rw [h180, Real.sin_pi]
  have hc270 : Real.cos (deg2rad 270) = 0 := by
    rw [h270, Real.cos_add]
    simp [Real.cos_pi, Real.sin_pi, Real.cos_pi_div_two, Real.sin_pi_div_two]
  have hs270 : Real.sin (deg2rad 270) = -1 := by
    rw [h270, Real.sin_add]
    simp [Real.cos_pi, Real.sin_pi, Real.cos_pi_div_two, Real.sin_pi_div_two]
  have hcc : Real.cos (deg2rad 75) = c75 := rfl
  have hss : Real.sin (deg2rad 75) = s75 := rfl
  ext i j
  fin_cases i <;> fin_cases j <;>
    simp only [A75, build_A, az4, Matrix.of_apply, List.get] <;>
    simp only [hc0, hs0, hc90, hs90, hc180, hs180, hc270, hs270, hcc, hss] <;>
    simp [Matrix.cons_val_zero, Matrix.cons_val_one, Matrix.head_cons, Matrix.vecHead,
      Matrix.vecTail]

/-- The normal matrix of the synthetic scan is diagonal:
`diag (2 c², 2 c², 4 s²)`. -/
theorem ATA_eq : A75ᵀ * A75 =
    !![2 * c75 ^ 2, 0, 0; 0, 2 * c75 ^ 2, 0; 0, 0, 4 * s75 ^ 2] := by
  rw [A75_eq]
  ext i j
  fin_cases i <;> fin_cases j <;>
    simp [Matrix.mul_apply, Fin.sum_univ_four, Matrix.transpose_apply,
      Matrix.cons_val_zero, Matrix.cons_val_one, Matrix.head_cons, Matrix.vecHead,
      Matrix.vecTail] <;> ring

/-- The cosine of the 75° elevation is positive (75° lies in (−90°, 90°)). -/
theorem c75_pos : 0 < c75 := by
  unfold c75 deg2rad
  apply Real.cos_pos_of_mem_Ioo
  refine Set.mem_Ioo.mpr ⟨?_, ?_⟩
  · nlinarith [Real.pi_pos]
  · nlinarith [Real.pi_pos]

/-- The sine of the 75° elevation is positive (75° lies in (0°, 180°)). -/
theorem s75_pos : 0 < s75 := by
  unfold s75 deg2rad
  apply Real.sin_pos_of_pos_of_lt_pi
  · nlinarith [Real.pi_pos]
  · nlinarith [Real.pi_pos]

/-- The normal matrix is nonsingular: its determinant `16 c⁴ s²` is nonzero.
For the design matrix this means the smallest singular value is positive, so
the reported condition number (largest over smallest singular value) is
finite. -/
theorem ATA_det_ne : (A75ᵀ * A75).det ≠ 0 := by
  have hdet : (A75ᵀ * A75).det = 2 * c75 ^ 2 * (2 * c75 ^ 2 * (4 * s75 ^ 2)) := by
    rw [ATA_eq, Matrix.det_fin_three]
    simp [Matrix.cons_val_zero, Matrix.cons_val_one, Matrix.head_cons, Matrix.vecHead,
      Matrix.vecTail]
    try ring
  rw [hdet]
  have hc2 : (0 : ℝ) < c75 ^ 2 := pow_pos c75_pos 2
  have hs2 : (0 : ℝ) < s75 ^ 2 := pow_pos s75_pos 2
  have hpos : (0 : ℝ) < 2 * c75 ^ 2 * (2 * c75 ^ 2 * (4 * s75 ^ 2)) := by
    nlinarith [mul_pos (mul_pos hc2 hc2) hs2]
  exact ne_of_gt hpos

/-- The synthetic design matrix has full column rank 3. -/
theorem A75_rank : A75.rank = 3 := by
  have h := Matrix.rank_transpose_mul_self A75
  rw [← h]
  have hu : IsUnit (A75ᵀ * A75) :=
    (Matrix.isUnit_iff_isUnit_det _).mpr (isUnit_iff_ne_zero.mpr ATA_det_ne)
  rw [Matrix.rank_of_isUnit _ hu]
  simp

/-- Any least-squares solution of the synthetic system recovers the true wind
exactly. -/
theorem lstsq_unique_75 (x : Fin 3 → ℝ) (h : isLstsqSolution A75 vrTrue x) :
    x 0 = 5 ∧ x 1 = 3 ∧ x 2 = 0 := by
  have hb : A75ᵀ.mulVec vrTrue = (A75ᵀ * A75).mulVec wTrue := by
    rw [vrTrue, Matrix.mulVec_mulVec]
  rw [isLstsqSolution, hb, ATA_eq] at h
  have h0 := congrFun h 0
  have h1 := congrFun h 1
  have h2 := congrFun h 2
  simp [Matrix.mulVec, Matrix.dotProduct, Fin.sum_univ_three, wTrue,
    Matrix.cons_val_zero, Matrix.cons_val_one, Matrix.head_cons, Matrix.vecHead,
    Matrix.vecTail] at h0 h1 h2
  have hcne : c75 ≠ 0 := ne_of_gt c75_pos
  have hsne : s75 ≠ 0 := ne_of_gt s75_pos
  exact ⟨h0.resolve_right hcne, h1.resolve_right hcne, h2.resolve_left hsne⟩

/-- The solver's reported azimuth span for the four synthetic azimuths is
270°: all four circular gaps are 90°, and 360 − 90 = 270. -/
theorem span4_eq : circular_span_deg [0, 90, 180, 270] = 270 := by
  norm_num [circular_span_deg, QC.sortedList, QC.insertSorted, QC.qmod, List.getD,
    List.range_succ, max_def, min_def]

/-- C2 counterexample: the azimuth span the solver reports for azimuths
{0°, 90°, 180°, 270°} is 270° (360° minus the maximal 90° gap), not the 360°
the claim states. -/
theorem span4_not_360 :
    circular_span_deg [0, 90, 180, 270] = 270 ∧ ((270 : ℚ) ≠ 360) :=
  ⟨span4_eq, by norm_num⟩

/-- C2 amended: for synthetic rays from true wind u=5, v=3, w=0 at elevation
75° and azimuths {0°, 90°, 180°, 270°}, every least-squares solution recovers
u and v exactly (so within 1e-6), the design matrix has rank 3 and a
nonsingular normal matrix (positive smallest singular value, hence a finite
condition number), and the reported azimuth span is 270° — which still
exceeds the 120° threshold, so no LOWSPAN warning is emitted. -/
theorem synthetic_vad_recovery (x : Fin 3 → ℝ) (h : isLstsqSolution A75 vrTrue x) :
    (x 0 = 5 ∧ x 1 = 3 ∧ x 2 = 0) ∧
    A75.rank = 3 ∧
    (A75ᵀ * A75).det ≠ 0 ∧
    circular_span_deg [0, 90, 180, 270] = 270 ∧
    ¬ (circular_span_deg [0, 90, 180, 270] < az_span_min) := by
  refine ⟨lstsq_unique_75 x h, A75_rank, ATA_det_ne, span4_eq, ?_⟩
  rw [span4_eq]
  norm_num [az_span_min]

/-- C2 amended witness: the true wind itself is a least-squares solution of
the synthetic system, and the theorem applies to it. -/
theorem synthetic_vad_recovery_witness :
    isLstsqSolution A75 vrTrue ![5, 3, 0] ∧
    (((![5, 3, 0] : Fin 3 → ℝ) 0 = 5 ∧ (![5, 3, 0] : Fin 3 → ℝ) 1 = 3 ∧
        (![5, 3, 0] : Fin 3 → ℝ) 2 = 0) ∧
      A75.rank = 3 ∧
      (A75ᵀ * A75).det ≠ 0 ∧
      circular_span_deg [0, 90, 180, 270] = 270 ∧
      ¬ (circular_span_deg [0, 90, 180, 270] < az_span_min)) := by
  have hsol : isLstsqSolution A75 vrTrue ![5, 3, 0] := by
    show (A75ᵀ * A75).mulVec ![5, 3, 0] = A75ᵀ.mulVec vrTrue
    rw [vrTrue, Matrix.mulVec_mulVec]
    rfl
  exact ⟨hsol, synthetic_vad_recovery ![5, 3, 0] hsol⟩

end VAD
